import Mathlib

/-!
# flacman-fs: shallow embedding and verification

This file embeds the `flacman-fs` crate (files `mv.rs`, `fd.rs`, `fserror.rs`)
in Lean 4 and proves properties of the transfer engine (validated
copy / move / symlink / hardlink) and of the traversal engine
(strict and lenient directory walks and their derived filters).

The transfer engine is modelled over an explicit filesystem state `FS`:
a map from paths to entries, together with oracles describing the outcome
of each fallible OS primitive (`canonicalize`, `metadata`, `rename`,
`copy`, `remove_file`, `symlink`, `hard_link`).  Each operation threads the
state explicitly and returns the pair of its `Result` and the state after
the call.  The oracle fields are ambient: a mutation updates only the
`entries` map, which is sound here because no operation consults an oracle
after its first mutation.

The traversal engine is modelled over a directory tree (`WalkNode`),
mirroring how the `walkdir` crate enumerates a tree depth-first, yielding
the root first and an in-stream error for an unreadable entry.
-/

namespace Flacman

/-- An OS path, split into its components.  `absolute` records a leading
separator.  Mirrors the few `std::path::Path` operations the crate uses. -/
structure Path where
  absolute : Bool
  components : List String
deriving DecidableEq, Repr

/-- `std::path::Path::parent`: drops the last component; `None` for a root
or empty path.  For a bare relative file name (one component, not absolute)
the parent is the empty relative path, as in Rust. -/
def Path.parent (p : Path) : Option Path :=
  match p.components with
  | [] => none
  | _ => some ⟨p.absolute, p.components.dropLast⟩

/-- The empty relative path, `Path::new("")` in Rust. -/
def Path.empty : Path := ⟨false, []⟩

/-- `std::io::ErrorKind`, reduced to the one kind the code inspects
(`CrossesDevices`) plus everything else (carrying an opaque code). -/
inductive IoErrorKind where
  | crossesDevices
  | other (code : Nat)
deriving DecidableEq, Repr

/-- The `FsError` enum of `fserror.rs`.  `Io` carries the kind of the
underlying `std::io::Error`; `WalkDir` carries an opaque walkdir error. -/
inductive FsError where
  | Io (k : IoErrorKind)
  | PathNotFound (p : Path)
  | FileAlreadyExists (p : Path)
  | SameFile (p : Path)
  | PermissionError (p : Path)
  | NotAFile (p : Path)
  | NotADirectory (p : Path)
  | WalkDir (e : Nat)
deriving DecidableEq, Repr

/-- A filesystem entry: a regular file (content bytes and the read-only
permission bit), a directory, or a symbolic link storing its target path. -/
inductive Entry where
  | file (content : List Nat) (readonly : Bool)
  | dir
  | symlink (target : Path)
deriving DecidableEq, Repr

/-- Filesystem state: what exists at each path, plus oracles giving the
outcome of each fallible OS primitive (`none` = the primitive succeeds).
`canon` is `fs::canonicalize`: the canonical entity a path resolves to,
`none` when canonicalization fails (e.g. the path does not exist). -/
structure FS where
  entries : Path → Option Entry
  canon : Path → Option Path
  metadataErr : Path → Option IoErrorKind
  renameErr : Path → Path → Option IoErrorKind
  copyErr : Path → Path → Option IoErrorKind
  removeErr : Path → Option IoErrorKind
  symlinkErr : Path → Path → Option IoErrorKind
  hardlinkErr : Path → Path → Option IoErrorKind

namespace FS

/-- `Path::exists`. -/
def exists_ (fs : FS) (p : Path) : Bool := (fs.entries p).isSome

/-- `Path::is_dir`. -/
def is_dir (fs : FS) (p : Path) : Bool := fs.entries p == some .dir

/-- `metadata.permissions().readonly()`; directories and symlinks are
modelled as writable (no claim exercises a read-only directory). -/
def readonly (fs : FS) (p : Path) : Bool :=
  match fs.entries p with
  | some (.file _ ro) => ro
  | _ => false

end FS

/-- `fs::remove_file`: on success the entry at `p` is gone. -/
def fs_remove_file (fs : FS) (p : Path) : Except IoErrorKind Unit × FS :=
  match fs.removeErr p with
  | some k => (.error k, fs)
  | none => (.ok (), { fs with entries := fun q => if q = p then none else fs.entries q })

/-- `fs::rename`: on success the entry moves from `src` to `dst`.  POSIX
`rename` of a path onto itself succeeds and changes nothing. -/
def fs_rename (fs : FS) (src dst : Path) : Except IoErrorKind Unit × FS :=
  match fs.renameErr src dst with
  | some k => (.error k, fs)
  | none =>
    if src = dst then (.ok (), fs)
    else (.ok (), { fs with entries := fun q =>
      if q = src then none else if q = dst then fs.entries src else fs.entries q })

/-- `fs::copy`: on success `dst` holds a copy of `src`'s entry (content and
permission bits are copied). -/
def fs_copy (fs : FS) (src dst : Path) : Except IoErrorKind Unit × FS :=
  match fs.copyErr src dst with
  | some k => (.error k, fs)
  | none => (.ok (), { fs with entries := fun q => if q = dst then fs.entries src else fs.entries q })

/-- `std::os::unix::fs::symlink`: on success a symlink to `src` appears at `dst`. -/
def fs_symlink (fs : FS) (src dst : Path) : Except IoErrorKind Unit × FS :=
  match fs.symlinkErr src dst with
  | some k => (.error k, fs)
  | none => (.ok (), { fs with entries := fun q => if q = dst then some (.symlink src) else fs.entries q })

/-- `fs::hard_link`: on success `dst` becomes another entry for `src`'s file. -/
def fs_hard_link (fs : FS) (src dst : Path) : Except IoErrorKind Unit × FS :=
  match fs.hardlinkErr src dst with
  | some k => (.error k, fs)
  | none => (.ok (), { fs with entries := fun q => if q = dst then fs.entries src else fs.entries q })

/-- `validate_source` (mv.rs:9-22): source must exist, not be a directory,
and have readable metadata. -/
def validate_source (fs : FS) (path : Path) : Except FsError Unit :=
  if !fs.exists_ path then .error (.PathNotFound path)
  else if fs.is_dir path then .error (.NotAFile path)
  else
    match fs.metadataErr path with
    | some k => .error (.Io k)
    | none => .ok ()

/-- The same-file test of `validate_destination` (mv.rs:27-31): both paths
canonicalize successfully and to the same canonical entity. -/
def sameCanon (fs : FS) (source dest : Path) : Bool :=
  match fs.canon source, fs.canon dest with
  | some srcCanon, some dstCanon => srcCanon == dstCanon
  | _, _ => false

/-- `validate_destination` (mv.rs:25-44): same-file check, then parent
existence, then the overwrite policy for an existing destination. -/
def validate_destination (fs : FS) (source dest : Path) (allow_overwrite : Bool) :
    Except FsError Unit :=
  if sameCanon fs source dest then .error (.SameFile dest)
  else
    match dest.parent with
    | some parent =>
      if !fs.exists_ parent then .error (.PathNotFound parent)
      else if fs.exists_ dest && !allow_overwrite then .error (.FileAlreadyExists dest)
      else .ok ()
    | none =>
      if fs.exists_ dest && !allow_overwrite then .error (.FileAlreadyExists dest)
      else .ok ()

/-- `validate_writable` (mv.rs:46-54): when the path exists, read its
metadata (`Io` on failure) and fail with `PermissionError` if read-only. -/
def validate_writable (fs : FS) (path : Path) : Except FsError Unit :=
  if fs.exists_ path then
    match fs.metadataErr path with
    | some k => .error (.Io k)
    | none =>
      if fs.readonly path then .error (.PermissionError path)
      else .ok ()
  else .ok ()

/-- The inline parent check of `symlink_file` (mv.rs:144-148) and
`hardlink_file` (mv.rs:186-190). -/
def check_parent (fs : FS) (dst : Path) : Except FsError Unit :=
  match dst.parent with
  | some parent =>
    if !fs.exists_ parent then .error (.PathNotFound parent) else .ok ()
  | none => .ok ()

/-- Tail of `copy_file` after all validation (mv.rs:80-82): `fs::copy`,
then return the destination path. -/
def copy_finish (fs : FS) (src dst : Path) : Except FsError Path × FS :=
  match fs_copy fs src dst with
  | (.error k, fs1) => (.error (.Io k), fs1)
  | (.ok (), fs1) => (.ok dst, fs1)

/-- `copy_file` (mv.rs:65-83). -/
def copy_file (fs : FS) (src dst : Path) (overwrite : Bool) : Except FsError Path × FS :=
  match validate_source fs src with
  | .error e => (.error e, fs)
  | .ok () =>
  match validate_destination fs src dst overwrite with
  | .error e => (.error e, fs)
  | .ok () =>
  if overwrite && fs.exists_ dst then
    match validate_writable fs dst with
    | .error e => (.error e, fs)
    | .ok () => copy_finish fs src dst
  else copy_finish fs src dst

/-- The cross-device fallback of `move_file` (mv.rs:113-115): copy the
source to the destination, then delete the source. -/
def move_fallback (fs : FS) (src dst : Path) : Except FsError Path × FS :=
  match fs_copy fs src dst with
  | (.error k, fs1) => (.error (.Io k), fs1)
  | (.ok (), fs1) =>
    match fs_remove_file fs1 src with
    | (.error k, fs2) => (.error (.Io k), fs2)
    | (.ok (), fs2) => (.ok dst, fs2)

/-- Tail of `move_file` after validation and the optional overwrite
removal (mv.rs:110-118): rename, with the cross-device fallback. -/
def move_finish (fs : FS) (src dst : Path) : Except FsError Path × FS :=
  match fs_rename fs src dst with
  | (.ok (), fs1) => (.ok dst, fs1)
  | (.error k, fs1) =>
    if k = .crossesDevices then move_fallback fs1 src dst
    else (.error (.Io k), fs1)

/-- `move_file` (mv.rs:94-119). -/
def move_file (fs : FS) (src dst : Path) (overwrite : Bool) : Except FsError Path × FS :=
  match validate_source fs src with
  | .error e => (.error e, fs)
  | .ok () =>
  match validate_destination fs src dst overwrite with
  | .error e => (.error e, fs)
  | .ok () =>
  if overwrite && fs.exists_ dst then
    match validate_writable fs dst with
    | .error e => (.error e, fs)
    | .ok () =>
      match fs_remove_file fs dst with
      | (.error k, fs1) => (.error (.Io k), fs1)
      | (.ok (), fs1) => move_finish fs1 src dst
  else move_finish fs src dst

/-- Tail of `symlink_file` after its checks (mv.rs:158-160). -/
def symlink_finish (fs : FS) (src dst : Path) : Except FsError Path × FS :=
  match fs_symlink fs src dst with
  | (.error k, fs1) => (.error (.Io k), fs1)
  | (.ok (), fs1) => (.ok dst, fs1)

/-- `symlink_file` (mv.rs:134-161).  Note: unlike `copy_file` and
`move_file`, it does not call `validate_destination`; its destination
checks are inline and include no same-file detection. -/
def symlink_file (fs : FS) (src dst : Path) (overwrite : Bool) : Except FsError Path × FS :=
  match validate_source fs src with
  | .error e => (.error e, fs)
  | .ok () =>
  match check_parent fs dst with
  | .error e => (.error e, fs)
  | .ok () =>
  if fs.exists_ dst then
    if !overwrite then (.error (.FileAlreadyExists dst), fs)
    else
      match validate_writable fs dst with
      | .error e => (.error e, fs)
      | .ok () =>
        match fs_remove_file fs dst with
        | (.error k, fs1) => (.error (.Io k), fs1)
        | (.ok (), fs1) => symlink_finish fs1 src dst
  else symlink_finish fs src dst

/-- Tail of `hardlink_file` after its checks (mv.rs:200-202). -/
def hardlink_finish (fs : FS) (src dst : Path) : Except FsError Path × FS :=
  match fs_hard_link fs src dst with
  | (.error k, fs1) => (.error (.Io k), fs1)
  | (.ok (), fs1) => (.ok dst, fs1)

/-- `hardlink_file` (mv.rs:176-203).  Same inline checks as
`symlink_file`; no same-file detection. -/
def hardlink_file (fs : FS) (src dst : Path) (overwrite : Bool) : Except FsError Path × FS :=
  match validate_source fs src with
  | .error e => (.error e, fs)
  | .ok () =>
  match check_parent fs dst with
  | .error e => (.error e, fs)
  | .ok () =>
  if fs.exists_ dst then
    if !overwrite then (.error (.FileAlreadyExists dst), fs)
    else
      match validate_writable fs dst with
      | .error e => (.error e, fs)
      | .ok () =>
        match fs_remove_file fs dst with
        | (.error k, fs1) => (.error (.Io k), fs1)
        | (.ok (), fs1) => hardlink_finish fs1 src dst
  else hardlink_finish fs src dst

/-- The `TransferMode` enum (mv.rs:205-215). -/
inductive TransferMode where
  | Copy
  | Move
  | Symlink
  | Hardlink
deriving DecidableEq, Repr

/-- `transfer_file` (mv.rs:218-230): mode dispatch, no extra validation. -/
def transfer_file (fs : FS) (src dst : Path) (mode : TransferMode) (overwrite : Bool) :
    Except FsError Path × FS :=
  match mode with
  | .Copy => copy_file fs src dst overwrite
  | .Move => move_file fs src dst overwrite
  | .Symlink => symlink_file fs src dst overwrite
  | .Hardlink => hardlink_file fs src dst overwrite

/-- The pre-flight prefix shared verbatim by `copy_file` and `move_file`:
source validation, destination validation, and the writability check on the
overwrite path (mv.rs:73-78 and mv.rs:102-106).  The overwrite removal in
`move_file` is a mutation and is not part of this prefix. -/
def copy_move_preflight (fs : FS) (src dst : Path) (overwrite : Bool) : Except FsError Unit :=
  match validate_source fs src with
  | .error e => .error e
  | .ok () =>
  match validate_destination fs src dst overwrite with
  | .error e => .error e
  | .ok () =>
  if overwrite && fs.exists_ dst then validate_writable fs dst
  else .ok ()

/-- The pre-flight prefix shared verbatim by `symlink_file` and
`hardlink_file`: source validation, the inline parent check, and the
exists / overwrite / writability checks (mv.rs:142-154, mv.rs:184-196),
excluding the removal. -/
def link_preflight (fs : FS) (src dst : Path) (overwrite : Bool) : Except FsError Unit :=
  match validate_source fs src with
  | .error e => .error e
  | .ok () =>
  match check_parent fs dst with
  | .error e => .error e
  | .ok () =>
  if fs.exists_ dst then
    if !overwrite then .error (.FileAlreadyExists dst)
    else validate_writable fs dst
  else .ok ()

/-! ## Traversal engine (fd.rs) -/

mutual
/-- A directory tree as the `walkdir` crate enumerates it: a regular file
(carrying its full path), a directory (its full path and its children in
enumeration order), or an entry the walk fails to read, which `walkdir`
yields as an in-stream `Err` and does not descend into. -/
inductive WalkNode where
  | file (p : Path)
  | dir (p : Path) (children : WalkForest)
  | err (e : Nat)
deriving Repr

/-- A list of sibling trees, in enumeration order. -/
inductive WalkForest where
  | nil
  | cons (head : WalkNode) (tail : WalkForest)
deriving Repr
end

/-- A filesystem as seen by the traversal engine: what tree (if any) is
rooted at each path. -/
structure WalkFS where
  lookup : Path → Option WalkNode

/-- `Path::is_file` on the walk root. -/
def WalkNode.isFileNode : WalkNode → Bool
  | .file _ => true
  | _ => false

/-- An item of the raw `WalkDir` iterator: a directory entry or an error. -/
inductive WEntry where
  | file (p : Path)
  | dir (p : Path)
deriving DecidableEq, Repr

/-- The path of a raw entry (`DirEntry::path`). -/
def WEntry.path : WEntry → Path
  | .file p => p
  | .dir p => p

/-- `DirEntry::file_type().is_file()`. -/
def WEntry.is_file : WEntry → Bool
  | .file _ => true
  | .dir _ => false

mutual
/-- The raw `WalkDir::new(root).into_iter()` stream: depth-first, the
directory itself first, then its children; an unreadable entry is one
`Err` item. -/
def rawWalk : WalkNode → List (Except Nat WEntry)
  | .file p => [.ok (.file p)]
  | .err e => [.error e]
  | .dir p cs => .ok (.dir p) :: rawWalkForest cs

/-- The raw stream of a forest of siblings, in order. -/
def rawWalkForest : WalkForest → List (Except Nat WEntry)
  | .nil => []
  | .cons c cs => rawWalk c ++ rawWalkForest cs
end

/-- The `filter_map` closure of `walkdir` (fd.rs:36-49): keep files as
`Ok`, drop directories, wrap stream errors in `FsError::WalkDir`. -/
def walkFilter (r : Except Nat WEntry) : Option (Except FsError Path) :=
  match r with
  | .ok entry => if entry.is_file then some (.ok entry.path) else none
  | .error e => some (.error (.WalkDir e))

/-- The element stream produced by `walkdir` after validation. -/
def walkdirStream (n : WalkNode) : List (Except FsError Path) :=
  (rawWalk n).filterMap walkFilter

/-- `walkdir` (fd.rs:19-52): validate the root, then the filtered stream. -/
def walkdir (wfs : WalkFS) (path : Path) : Except FsError (List (Except FsError Path)) :=
  match wfs.lookup path with
  | none => .error (.PathNotFound path)
  | some n =>
    if n.isFileNode then .error (.NotADirectory path)
    else .ok (walkdirStream n)

/-- The element stream produced by `walkdir_lenient` after validation
(fd.rs:71-75): drop errors, keep files, take their paths. -/
def lenientStream (n : WalkNode) : List Path :=
  ((((rawWalk n).filterMap Except.toOption).filter WEntry.is_file).map WEntry.path)

/-- `walkdir_lenient` (fd.rs:58-78). -/
def walkdir_lenient (wfs : WalkFS) (path : Path) : Except FsError (List Path) :=
  match wfs.lookup path with
  | none => .error (.PathNotFound path)
  | some n =>
    if n.isFileNode then .error (.NotADirectory path)
    else .ok (lenientStream n)

/-- `char::to_ascii_lowercase`. -/
def asciiLower (c : Char) : Char :=
  if 'A' ≤ c ∧ c ≤ 'Z' then Char.ofNat (c.toNat + 32) else c

/-- `str::eq_ignore_ascii_case`. -/
def eqIgnoreAsciiCase (a b : String) : Bool :=
  a.toList.map asciiLower == b.toList.map asciiLower

/-- `str::to_lowercase`, modelled as ASCII lowering; adequate here because
every comparison target in the crate is pure-ASCII. -/
def strLower (s : String) : String :=
  ⟨s.toList.map asciiLower⟩

/-- The characters after the last `.` of a list, `none` if no dot. -/
def afterLastDot : List Char → Option (List Char)
  | [] => none
  | c :: rest =>
    match afterLastDot rest with
    | some e => some e
    | none => if c = '.' then some rest else none

/-- `Path::extension`: the part of the file name after its last dot,
`None` when there is no dot or the only dot leads the name. -/
def Path.extension (p : Path) : Option String :=
  match p.components.getLast? with
  | none => none
  | some name =>
    match name.toList with
    | [] => none
    | _ :: rest =>
      match afterLastDot rest with
      | some e => some ⟨e⟩
      | none => none

/-- The loop body of `find_ext` (fd.rs:122-130): `?` on an error element
aborts the whole call; a file is retained when its extension matches
case-insensitively. -/
def find_ext_go (ext : String) : List (Except FsError Path) → Except FsError (List Path)
  | [] => .ok []
  | .error e :: _ => .error e
  | .ok p :: rest =>
    match find_ext_go ext rest with
    | .error e => .error e
    | .ok ms =>
      match p.extension with
      | some e2 => if eqIgnoreAsciiCase e2 ext then .ok (p :: ms) else .ok ms
      | none => .ok ms

/-- `find_ext` (fd.rs:116-133). -/
def find_ext (wfs : WalkFS) (root : Path) (target_extension : String) :
    Except FsError (List Path) :=
  match walkdir wfs root with
  | .error e => .error e
  | .ok stream => find_ext_go target_extension stream

/-- The audio-extension allowlist of `find_audio_files` (fd.rs:158). -/
def AUDIO_EXTS : List String := ["flac", "mp3", "m4a", "ogg", "opus", "wav", "aac", "wma"]

/-- The loop body of `find_audio_files` (fd.rs:162-172).  The `to_str`
step of the code always succeeds in this model, where path components are
text. -/
def find_audio_go : List Path → List Path
  | [] => []
  | p :: rest =>
    match p.extension with
    | some ext =>
      if AUDIO_EXTS.contains (strLower ext) then p :: find_audio_go rest
      else find_audio_go rest
    | none => find_audio_go rest

/-- `find_audio_files` (fd.rs:157-175): the lenient walk, filtered by the
allowlist. -/
def find_audio_files (wfs : WalkFS) (root : Path) : Except FsError (List Path) :=
  match walkdir_lenient wfs root with
  | .error e => .error e
  | .ok paths => .ok (find_audio_go paths)

/-! ### Spec-side traversal recursions

`specStream`, `filesOf` and `errsOf` are modelled from the spec: the
depth-first sequence "over every regular file reachable by depth-first
descent from root (directories themselves are not yielded)", with each
in-stream error "surfaced as an error element in the sequence at that
position, without aborting the rest of the traversal". -/

mutual
/-- Modelled from the spec: the strict walk sequence — files as `Ok`
elements and traversal errors as in-place error elements, depth first,
directories not yielded. -/
def specStream : WalkNode → List (Except FsError Path)
  | .file p => [.ok p]
  | .err e => [.error (.WalkDir e)]
  | .dir _ cs => specStreamForest cs

/-- The spec-side walk sequence of a forest of siblings. -/
def specStreamForest : WalkForest → List (Except FsError Path)
  | .nil => []
  | .cons c cs => specStream c ++ specStreamForest cs
end

mutual
/-- Modelled from the spec: every regular file reachable by depth-first
descent, in traversal order. -/
def filesOf : WalkNode → List Path
  | .file p => [p]
  | .err _ => []
  | .dir _ cs => filesOfForest cs

/-- The files of a forest of siblings, in traversal order. -/
def filesOfForest : WalkForest → List Path
  | .nil => []
  | .cons c cs => filesOf c ++ filesOfForest cs
end

mutual
/-- Modelled from the spec: the traversal errors met during the walk, in
traversal order. -/
def errsOf : WalkNode → List Nat
  | .file _ => []
  | .err e => [e]
  | .dir _ cs => errsOfForest cs

/-- The traversal errors of a forest of siblings, in order. -/
def errsOfForest : WalkForest → List Nat
  | .nil => []
  | .cons c cs => errsOf c ++ errsOfForest cs
end

/-- The retention test of `find_ext`, as a predicate on one path. -/
def extMatches (target : String) (p : Path) : Bool :=
  match p.extension with
  | some ext => eqIgnoreAsciiCase ext target
  | none => false

/-- The retention test of `find_audio_files`, as a predicate on one path. -/
def audioMatch (p : Path) : Bool :=
  match p.extension with
  | some ext => AUDIO_EXTS.contains (strLower ext)
  | none => false

/-! ## Concrete fixtures -/

/-- The root directory of the concrete transfer scenarios. -/
def pRootW : Path := ⟨true, []⟩

/-- An existing regular source file. -/
def pSrcW : Path := ⟨true, ["s.txt"]⟩

/-- A fresh destination path. -/
def pDstW : Path := ⟨true, ["d.txt"]⟩

/-- A nonexistent path. -/
def pMissW : Path := ⟨true, ["missing.txt"]⟩

/-- A filesystem with the root directory and one regular file `pSrcW`
(content `[7]`, writable); all primitives succeed; canonicalization
succeeds exactly on the existing file. -/
def baseFS : FS := {
  entries := fun q =>
    if q = pRootW then some .dir
    else if q = pSrcW then some (.file [7] false)
    else none
  canon := fun q => if q = pSrcW then some pSrcW else none
  metadataErr := fun _ => none
  renameErr := fun _ _ => none
  copyErr := fun _ _ => none
  removeErr := fun _ => none
  symlinkErr := fun _ _ => none
  hardlinkErr := fun _ _ => none }

/-- `baseFS`, but `fs::hard_link` fails (as it does on a just-removed
source). -/
def fsC1cex : FS := { baseFS with hardlinkErr := fun _ _ => some (.other 2) }

/-- `baseFS`, but `fs::rename` fails with a cross-device error. -/
def fsXdev : FS := { baseFS with renameErr := fun _ _ => some .crossesDevices }

/-- `baseFS` with an existing read-only destination file at `pDstW`. -/
def fsRO : FS :=
  { baseFS with
    entries := fun q =>
      if q = pRootW then some .dir
      else if q = pSrcW then some (.file [7] false)
      else if q = pDstW then some (.file [9] true)
      else none }

/-- `baseFS` with an existing writable destination file at `pDstW`. -/
def fsRW : FS :=
  { baseFS with
    entries := fun q =>
      if q = pRootW then some .dir
      else if q = pSrcW then some (.file [7] false)
      else if q = pDstW then some (.file [9] false)
      else none }

/-- The concrete walked directory. -/
def dirM : Path := ⟨true, ["m"]⟩

/-- `m/a.flac`. -/
def aFlac : Path := ⟨true, ["m", "a.flac"]⟩

/-- `m/b.FLAC`. -/
def bFlac : Path := ⟨true, ["m", "b.FLAC"]⟩

/-- `m/c.mp3`. -/
def cMp3 : Path := ⟨true, ["m", "c.mp3"]⟩

/-- A directory containing exactly `a.flac`, `b.FLAC`, `c.mp3`. -/
def treeExt : WalkNode :=
  .dir dirM (.cons (.file aFlac) (.cons (.file bFlac) (.cons (.file cMp3) .nil)))

/-- `m/song.flac`. -/
def songF : Path := ⟨true, ["m", "song.flac"]⟩

/-- `m/track.mp3`. -/
def trackF : Path := ⟨true, ["m", "track.mp3"]⟩

/-- `m/readme.txt`. -/
def readmeF : Path := ⟨true, ["m", "readme.txt"]⟩

/-- A directory containing exactly `song.flac`, `track.mp3`, `readme.txt`. -/
def treeAudio : WalkNode :=
  .dir dirM (.cons (.file songF) (.cons (.file trackF) (.cons (.file readmeF) .nil)))

/-- An existing regular file outside any walked directory. -/
def fLone : Path := ⟨true, ["lone.txt"]⟩

/-- A nonexistent path for the walk scenarios. -/
def pGone : Path := ⟨true, ["gone"]⟩

/-- A traversal filesystem with `treeExt` at `dirM` and a regular file at
`fLone`. -/
def wfsExt : WalkFS :=
  { lookup := fun q =>
      if q = dirM then some treeExt
      else if q = fLone then some (.file fLone)
      else none }

/-- A traversal filesystem with `treeAudio` at `dirM`. -/
def wfsAudio : WalkFS := { lookup := fun q => if q = dirM then some treeAudio else none }

/-! ## Theorems -/

/-- Simultaneous induction over trees and forests. -/
theorem walkNode_forest_ind (P : WalkNode → Prop) (Q : WalkForest → Prop)
    (hfile : ∀ p, P (.file p))
    (hdir : ∀ p cs, Q cs → P (.dir p cs))
    (herr : ∀ e, P (.err e))
    (hnil : Q .nil)
    (hcons : ∀ c cs, P c → Q cs → Q (.cons c cs)) :
    (∀ n, P n) ∧ (∀ cs, Q cs) :=
  ⟨fun n => @WalkNode.rec P Q hfile hdir herr hnil hcons n,
   fun cs => @WalkForest.rec P Q hfile hdir herr hnil hcons cs⟩

/-- A pre-flight failure makes `copy_file` return it, state untouched. -/
theorem copy_file_preflight_error (fs : FS) (src dst : Path) (ow : Bool) (e : FsError)
    (h : copy_move_preflight fs src dst ow = .error e) :
    copy_file fs src dst ow = (.error e, fs) := by
  unfold copy_move_preflight at h
  unfold copy_file
  cases hs : validate_source fs src with
  | error e1 => simp [hs] at h; simp [h]
  | ok u =>
    cases u
    simp only [hs] at h ⊢
    cases hd : validate_destination fs src dst ow with
    | error e1 => simp [hd] at h; simp [h]
    | ok u =>
      cases u
      simp only [hd] at h ⊢
      by_cases hc : (ow && fs.exists_ dst) = true
      · simp only [hc, if_true] at h ⊢
        cases hw : validate_writable fs dst with
        | error e1 => simp [hw] at h; simp [h]
        | ok u => cases u; simp [hw] at h
      · simp only [Bool.not_eq_true] at hc
        simp [hc] at h

/-- A successful pre-flight makes `copy_file` proceed to `fs::copy`. -/
theorem copy_file_preflight_ok (fs : FS) (src dst : Path) (ow : Bool)
    (h : copy_move_preflight fs src dst ow = .ok ()) :
    copy_file fs src dst ow = copy_finish fs src dst := by
  unfold copy_move_preflight at h
  unfold copy_file
  cases hs : validate_source fs src with
  | error e1 => simp [hs] at h
  | ok u =>
    cases u
    simp only [hs] at h ⊢
    cases hd : validate_destination fs src dst ow with
    | error e1 => simp [hd] at h
    | ok u =>
      cases u
      simp only [hd] at h ⊢
      by_cases hc : (ow && fs.exists_ dst) = true
      · simp only [hc, if_true] at h ⊢
        cases hw : validate_writable fs dst with
        | error e1 => simp [hw] at h
        | ok u => cases u; simp [hw]
      · simp only [Bool.not_eq_true] at hc
        simp [hc]

/-- A pre-flight failure makes `move_file` return it, state untouched. -/
theorem move_file_preflight_error (fs : FS) (src dst : Path) (ow : Bool) (e : FsError)
    (h : copy_move_preflight fs src dst ow = .error e) :
    move_file fs src dst ow = (.error e, fs) := by
  unfold copy_move_preflight at h
  unfold move_file
  cases hs : validate_source fs src with
  | error e1 => simp [hs] at h; simp [h]
  | ok u =>
    cases u
    simp only [hs] at h ⊢
    cases hd : validate_destination fs src dst ow with
    | error e1 => simp [hd] at h; simp [h]
    | ok u =>
      cases u
      simp only [hd] at h ⊢
      by_cases hc : (ow && fs.exists_ dst) = true
      · simp only [hc, if_true] at h ⊢
        cases hw : validate_writable fs dst with
        | error e1 => simp [hw] at h; simp [h]
        | ok u => cases u; simp [hw] at h
      · simp only [Bool.not_eq_true] at hc
        simp [hc] at h

/-- A successful pre-flight makes `move_file` proceed to the overwrite
removal (when requested) and then the rename step. -/
theorem move_file_preflight_ok (fs : FS) (src dst : Path) (ow : Bool)
    (h : copy_move_preflight fs src dst ow = .ok ()) :
    move_file fs src dst ow =
      if ow && fs.exists_ dst then
        match fs_remove_file fs dst with
        | (.error k, fs1) => (.error (.Io k), fs1)
        | (.ok (), fs1) => move_finish fs1 src dst
      else move_finish fs src dst := by
  unfold copy_move_preflight at h
  unfold move_file
  cases hs : validate_source fs src with
  | error e1 => simp [hs] at h
  | ok u =>
    cases u
    simp only [hs] at h ⊢
    cases hd : validate_destination fs src dst ow with
    | error e1 => simp [hd] at h
    | ok u =>
      cases u
      simp only [hd] at h ⊢
      by_cases hc : (ow && fs.exists_ dst) = true
      · simp only [hc, if_true] at h ⊢
        cases hw : validate_writable fs dst with
        | error e1 => simp [hw] at h
        | ok u => cases u; simp [hw]
      · simp only [Bool.not_eq_true] at hc
        simp [hc]

/-- A pre-flight failure makes `symlink_file` return it, state untouched. -/
theorem symlink_file_preflight_error (fs : FS) (src dst : Path) (ow : Bool) (e : FsError)
    (h : link_preflight fs src dst ow = .error e) :
    symlink_file fs src dst ow = (.error e, fs) := by
  unfold link_preflight at h
  unfold symlink_file
  cases hs : validate_source fs src with
  | error e1 => simp [hs] at h; simp [h]
  | ok u =>
    cases u
    simp only [hs] at h ⊢
    cases hp : check_parent fs dst with
    | error e1 => simp [hp] at h; simp [h]
    | ok u =>
      cases u
      simp only [hp] at h ⊢
      by_cases hc : fs.exists_ dst = true
      · simp only [hc, if_true] at h ⊢
        by_cases ho : ow = true
        · simp only [ho, Bool.not_true] at h ⊢
          simp only [Bool.false_eq_true, if_false] at h ⊢
          cases hw : validate_writable fs dst with
          | error e1 => simp [hw] at h; simp [h]
          | ok u => cases u; simp [hw] at h
        · simp only [Bool.not_eq_true] at ho
          simp [ho] at h ⊢
          simp [h]
      · simp only [Bool.not_eq_true] at hc
        simp [hc] at h

/-- A successful pre-flight makes `symlink_file` proceed to the overwrite
removal (when the destination exists) and then the symlink step. -/
theorem symlink_file_preflight_ok (fs : FS) (src dst : Path) (ow : Bool)
    (h : link_preflight fs src dst ow = .ok ()) :
    symlink_file fs src dst ow =
      if fs.exists_ dst then
        match fs_remove_file fs dst with
        | (.error k, fs1) => (.error (.Io k), fs1)
        | (.ok (), fs1) => symlink_finish fs1 src dst
      else symlink_finish fs src dst := by
  unfold link_preflight at h
  unfold symlink_file
  cases hs : validate_source fs src with
  | error e1 => simp [hs] at h
  | ok u =>
    cases u
    simp only [hs] at h ⊢
    cases hp : check_parent fs dst with
    | error e1 => simp [hp] at h
    | ok u =>
      cases u
      simp only [hp] at h ⊢
      by_cases hc : fs.exists_ dst = true
      · simp only [hc, if_true] at h ⊢
        by_cases ho : ow = true
        · simp only [ho, Bool.not_true] at h ⊢
          simp only [Bool.false_eq_true, if_false] at h ⊢
          cases hw : validate_writable fs dst with
          | error e1 => simp [hw] at h
          | ok u => cases u; simp [hw]
        · simp only [Bool.not_eq_true] at ho
          simp [ho] at h
      · simp only [Bool.not_eq_true] at hc
        simp [hc]

/-- A pre-flight failure makes `hardlink_file` return it, state untouched. -/
theorem hardlink_file_preflight_error (fs : FS) (src dst : Path) (ow : Bool) (e : FsError)
    (h : link_preflight fs src dst ow = .error e) :
    hardlink_file fs src dst ow = (.error e, fs) := by
  unfold link_preflight at h
  unfold hardlink_file
  cases hs : validate_source fs src with
  | error e1 => simp [hs] at h; simp [h]
  | ok u =>
    cases u
    simp only [hs] at h ⊢
    cases hp : check_parent fs dst with
    | error e1 => simp [hp] at h; simp [h]
    | ok u =>
      cases u
      simp only [hp] at h ⊢
      by_cases hc : fs.exists_ dst = true
      · simp only [hc, if_true] at h ⊢
        by_cases ho : ow = true
        · simp only [ho, Bool.not_true] at h ⊢
          simp only [Bool.false_eq_true, if_false] at h ⊢
          cases hw : validate_writable fs dst with
          | error e1 => simp [hw] at h; simp [h]
          | ok u => cases u; simp [hw] at h
        · simp only [Bool.not_eq_true] at ho
          simp [ho] at h ⊢
          simp [h]
      · simp only [Bool.not_eq_true] at hc
        simp [hc] at h

/-- A successful pre-flight makes `hardlink_file` proceed to the overwrite
removal (when the destination exists) and then the hardlink step. -/
theorem hardlink_file_preflight_ok (fs : FS) (src dst : Path) (ow : Bool)
    (h : link_preflight fs src dst ow = .ok ()) :
    hardlink_file fs src dst ow =
      if fs.exists_ dst then
        match fs_remove_file fs dst with
        | (.error k, fs1) => (.error (.Io k), fs1)
        | (.ok (), fs1) => hardlink_finish fs1 src dst
      else hardlink_finish fs src dst := by
  unfold link_preflight at h
  unfold hardlink_file
  cases hs : validate_source fs src with
  | error e1 => simp [hs] at h
  | ok u =>
    cases u
    simp only [hs] at h ⊢
    cases hp : check_parent fs dst with
    | error e1 => simp [hp] at h
    | ok u =>
      cases u
      simp only [hp] at h ⊢
      by_cases hc : fs.exists_ dst = true
      · simp only [hc, if_true] at h ⊢
        by_cases ho : ow = true
        · simp only [ho, Bool.not_true] at h ⊢
          simp only [Bool.false_eq_true, if_false] at h ⊢
          cases hw : validate_writable fs dst with
          | error e1 => simp [hw] at h
          | ok u => cases u; simp [hw]
        · simp only [Bool.not_eq_true] at ho
          simp [ho] at h
      · simp only [Bool.not_eq_true] at hc
        simp [hc]

/-- C1, counterexample: with source and destination the same existing file
(so both canonicalize to the same entity), `symlink_file` with
`overwrite = false` fails with `FileAlreadyExists`, not `SameFile`; and
`hardlink_file` with `overwrite = true` mutates the filesystem: its
overwrite removal deletes the entry, which is the source itself. -/
theorem claim1_counterexample :
    sameCanon fsC1cex pSrcW pSrcW = true
    ∧ (symlink_file fsC1cex pSrcW pSrcW false).fst = .error (.FileAlreadyExists pSrcW)
    ∧ FsError.FileAlreadyExists pSrcW ≠ FsError.SameFile pSrcW
    ∧ fsC1cex.entries pSrcW = some (.file [7] false)
    ∧ (hardlink_file fsC1cex pSrcW pSrcW true).snd.entries pSrcW = none := by
  refine ⟨rfl, rfl, ?_, rfl, rfl⟩
  simp

/-- C1 (amended): when both paths canonicalize to the same entity and
source validation passes, `copy_file` and `move_file` fail with `SameFile`
for every overwrite flag and perform no mutation; `symlink_file` and
`hardlink_file` do not run the shared destination validation and perform
no same-file check — on such a pair (destination existing, parent check
passing) they fail with `FileAlreadyExists` when overwrite is false. -/
theorem claim1_amended (fs : FS) (src dst : Path) (overwrite : Bool)
    (hsrc : validate_source fs src = .ok ())
    (hsame : sameCanon fs src dst = true) :
    copy_file fs src dst overwrite = (.error (.SameFile dst), fs)
    ∧ move_file fs src dst overwrite = (.error (.SameFile dst), fs)
    ∧ (fs.exists_ dst = true → check_parent fs dst = .ok () →
        symlink_file fs src dst false = (.error (.FileAlreadyExists dst), fs)
        ∧ hardlink_file fs src dst false = (.error (.FileAlreadyExists dst), fs)) := by
  have hpre : ∀ ow, copy_move_preflight fs src dst ow = .error (.SameFile dst) := by
    intro ow
    unfold copy_move_preflight validate_destination
    simp [hsrc, hsame]
  refine ⟨copy_file_preflight_error _ _ _ _ _ (hpre overwrite),
          move_file_preflight_error _ _ _ _ _ (hpre overwrite), ?_⟩
  intro hex hpar
  have hl : link_preflight fs src dst false = .error (.FileAlreadyExists dst) := by
    unfold link_preflight
    simp [hsrc, hpar, hex]
  exact ⟨symlink_file_preflight_error _ _ _ _ _ hl, hardlink_file_preflight_error _ _ _ _ _ hl⟩

/-- C1 witness: the amended theorem at the concrete same-file pair. -/
theorem claim1_witness :
    copy_file fsC1cex pSrcW pSrcW true = (.error (.SameFile pSrcW), fsC1cex)
    ∧ move_file fsC1cex pSrcW pSrcW true = (.error (.SameFile pSrcW), fsC1cex) := by
  have h := claim1_amended fsC1cex pSrcW pSrcW true (by rfl) (by rfl)
  exact ⟨h.1, h.2.1⟩

/-- C2: an error from any validation stage (source validation, destination
validation, or the writability check — for symlink/hardlink their inline
equivalents) is returned as-is and the filesystem state is exactly the
pre-call state. -/
theorem claim2_validation_no_mutation (fs : FS) (src dst : Path) (overwrite : Bool)
    (e : FsError) :
    (copy_move_preflight fs src dst overwrite = .error e →
      copy_file fs src dst overwrite = (.error e, fs)
      ∧ move_file fs src dst overwrite = (.error e, fs))
    ∧ (link_preflight fs src dst overwrite = .error e →
      symlink_file fs src dst overwrite = (.error e, fs)
      ∧ hardlink_file fs src dst overwrite = (.error e, fs)) :=
  ⟨fun h => ⟨copy_file_preflight_error _ _ _ _ _ h, move_file_preflight_error _ _ _ _ _ h⟩,
   fun h => ⟨symlink_file_preflight_error _ _ _ _ _ h, hardlink_file_preflight_error _ _ _ _ _ h⟩⟩

/-- C2 witness: a nonexistent source makes every operation fail with
`PathNotFound` and leave the state untouched. -/
theorem claim2_witness :
    copy_file baseFS pMissW pDstW false = (.error (.PathNotFound pMissW), baseFS)
    ∧ move_file baseFS pMissW pDstW false = (.error (.PathNotFound pMissW), baseFS)
    ∧ symlink_file baseFS pMissW pDstW false = (.error (.PathNotFound pMissW), baseFS)
    ∧ hardlink_file baseFS pMissW pDstW false = (.error (.PathNotFound pMissW), baseFS) := by
  have hcm := (claim2_validation_no_mutation baseFS pMissW pDstW false
    (.PathNotFound pMissW)).1 (by rfl)
  have hlk := (claim2_validation_no_mutation baseFS pMissW pDstW false
    (.PathNotFound pMissW)).2 (by rfl)
  exact ⟨hcm.1, hcm.2, hlk.1, hlk.2⟩

/-- C3: after validation (and the overwrite removal, when taken) succeeds,
`move_file` attempts the rename; a successful rename returns the
destination; a non-cross-device rename failure is returned as `Io` with no
fallback (the state stays at the pre-rename state `fs1`); exactly a
cross-device failure triggers the copy-then-delete fallback, and when the
fallback's primitives succeed the destination path is returned. -/
theorem claim3_move_rename_fallback (fs fs1 : FS) (src dst : Path) (overwrite : Bool)
    (hpre : copy_move_preflight fs src dst overwrite = .ok ())
    (hrem : (overwrite && fs.exists_ dst) = true → fs.removeErr dst = none)
    (hfs1 : fs1 = if overwrite && fs.exists_ dst then (fs_remove_file fs dst).snd else fs) :
    (fs1.renameErr src dst = none →
      move_file fs src dst overwrite = (.ok dst, (fs_rename fs1 src dst).snd))
    ∧ (∀ k, fs1.renameErr src dst = some k → k ≠ .crossesDevices →
      move_file fs src dst overwrite = (.error (.Io k), fs1))
    ∧ (fs1.renameErr src dst = some .crossesDevices →
      move_file fs src dst overwrite = move_fallback fs1 src dst)
    ∧ (fs1.renameErr src dst = some .crossesDevices →
      fs1.copyErr src dst = none →
      ((fs_copy fs1 src dst).snd).removeErr src = none →
      (move_file fs src dst overwrite).fst = .ok dst) := by
  have hmv : move_file fs src dst overwrite = move_finish fs1 src dst := by
    rw [move_file_preflight_ok _ _ _ _ hpre, hfs1]
    by_cases hc : (overwrite && fs.exists_ dst) = true
    · have hre := hrem hc
      simp [hc, fs_remove_file, hre]
    · simp only [Bool.not_eq_true] at hc
      simp [hc]
  rw [hmv]
  refine ⟨?_, ?_, ?_, ?_⟩
  · intro h
    by_cases hsd : src = dst
    · subst hsd
      simp [move_finish, fs_rename, h]
    · simp [move_finish, fs_rename, h, hsd]
  · intro k h hk
    simp [move_finish, fs_rename, h, hk]
  · intro h
    simp [move_finish, fs_rename, h]
  · intro h hcopy hrem2
    simp only [fs_copy, hcopy] at hrem2
    simp [move_finish, fs_rename, h, move_fallback, fs_copy, hcopy, fs_remove_file, hrem2]

/-- C3 witness: a cross-device rename failure with a succeeding fallback
returns the destination path. -/
theorem claim3_witness : (move_file fsXdev pSrcW pDstW false).fst = .ok pDstW := by
  have h := claim3_move_rename_fallback fsXdev fsXdev pSrcW pDstW false (by rfl)
    (fun _ => rfl) (by rfl)
  exact h.2.2.2 (by rfl) (by rfl) (by rfl)

/-- C4: moving an existing regular file to a fresh destination whose
parent exists (and which is not the same canonical entity) succeeds: the
result is the destination, the source entry is gone and the destination
holds the source's former content. -/
theorem claim4_move_success (fs : FS) (src dst : Path) (content : List Nat) (ro : Bool)
    (hsrc : fs.entries src = some (.file content ro))
    (hmeta : fs.metadataErr src = none)
    (hsame : sameCanon fs src dst = false)
    (hpar : match dst.parent with
      | some parent => fs.exists_ parent = true
      | none => True)
    (hdst : fs.entries dst = none)
    (hren : fs.renameErr src dst = none) :
    (move_file fs src dst false).fst = .ok dst
    ∧ (move_file fs src dst false).snd.entries src = none
    ∧ (move_file fs src dst false).snd.entries dst = some (.file content ro) := by
  have hex : fs.exists_ src = true := by simp [FS.exists_, hsrc]
  have hnd : fs.is_dir src = false := by simp [FS.is_dir, hsrc]
  have hvs : validate_source fs src = .ok () := by
    unfold validate_source
    simp [hex, hnd, hmeta]
  have hexd : fs.exists_ dst = false := by simp [FS.exists_, hdst]
  have hvd : validate_destination fs src dst false = .ok () := by
    unfold validate_destination
    cases hp : dst.parent with
    | none => simp [hsame, hexd]
    | some parent =>
      rw [hp] at hpar
      simp [hsame, hpar, hexd]
  have hpre : copy_move_preflight fs src dst false = .ok () := by
    unfold copy_move_preflight
    simp [hvs, hvd]
  have hne : src ≠ dst := by
    intro hEq
    rw [hEq, hdst] at hsrc
    exact Option.noConfusion hsrc
  have hmv : move_file fs src dst false = (.ok dst, (fs_rename fs src dst).snd) := by
    rw [move_file_preflight_ok _ _ _ _ hpre]
    simp [move_finish, fs_rename, hren, hne]
  rw [hmv]
  refine ⟨rfl, ?_, ?_⟩ <;> simp [fs_rename, hren, hne, Ne.symm hne, hsrc]

/-- C4 witness: the success theorem at the concrete source and fresh
destination. -/
theorem claim4_witness :
    (move_file baseFS pSrcW pDstW false).fst = .ok pDstW
    ∧ (move_file baseFS pSrcW pDstW false).snd.entries pSrcW = none
    ∧ (move_file baseFS pSrcW pDstW false).snd.entries pDstW = some (.file [7] false) :=
  claim4_move_success baseFS pSrcW pDstW [7] false rfl rfl rfl rfl rfl rfl

/-- C10: when the destination is a bare relative file name, its computed
parent is the empty path, which never exists, so all four operations fail
with `PathNotFound` carrying the empty path and leave the state untouched. -/
theorem claim10_bare_relative_dest (fs : FS) (src : Path) (name : String) (overwrite : Bool)
    (hsrc : validate_source fs src = .ok ())
    (hcanon : fs.canon ⟨false, [name]⟩ = none)
    (hempty : fs.exists_ Path.empty = false) :
    copy_file fs src ⟨false, [name]⟩ overwrite = (.error (.PathNotFound Path.empty), fs)
    ∧ move_file fs src ⟨false, [name]⟩ overwrite = (.error (.PathNotFound Path.empty), fs)
    ∧ symlink_file fs src ⟨false, [name]⟩ overwrite = (.error (.PathNotFound Path.empty), fs)
    ∧ hardlink_file fs src ⟨false, [name]⟩ overwrite = (.error (.PathNotFound Path.empty), fs) := by
  have hsame : sameCanon fs src ⟨false, [name]⟩ = false := by
    unfold sameCanon
    rw [hcanon]
    cases fs.canon src <;> rfl
  have hp : Path.parent ⟨false, [name]⟩ = some Path.empty := rfl
  have hcm : copy_move_preflight fs src ⟨false, [name]⟩ overwrite =
      .error (.PathNotFound Path.empty) := by
    unfold copy_move_preflight validate_destination
    simp [hsrc, hsame, hp, hempty]
  have hlk : link_preflight fs src ⟨false, [name]⟩ overwrite =
      .error (.PathNotFound Path.empty) := by
    unfold link_preflight check_parent
    simp [hsrc, hp, hempty]
  exact ⟨copy_file_preflight_error _ _ _ _ _ hcm, move_file_preflight_error _ _ _ _ _ hcm,
         symlink_file_preflight_error _ _ _ _ _ hlk, hardlink_file_preflight_error _ _ _ _ _ hlk⟩

/-- C10 witness: the bare-relative-destination theorem at `"out.txt"`. -/
theorem claim10_witness :
    copy_file baseFS pSrcW ⟨false, ["out.txt"]⟩ true
      = (.error (.PathNotFound Path.empty), baseFS)
    ∧ symlink_file baseFS pSrcW ⟨false, ["out.txt"]⟩ true
      = (.error (.PathNotFound Path.empty), baseFS) := by
  have h := claim10_bare_relative_dest baseFS pSrcW "out.txt" true (by rfl) (by rfl) (by rfl)
  exact ⟨h.1, h.2.2.1⟩

/-- C5: with overwrite requested on an existing destination (validation
otherwise passing): a read-only destination makes all four operations fail
with `PermissionError` and leave the state untouched; otherwise `move_file`,
`symlink_file` and `hardlink_file` remove the destination immediately
before their mutation (they continue from the state with the destination
entry gone), while `copy_file` proceeds directly to the copy primitive on
the unchanged state, with no separate removal. -/
theorem claim5_overwrite_policy (fs : FS) (src dst : Path)
    (hsrc : validate_source fs src = .ok ())
    (hsame : sameCanon fs src dst = false)
    (hpar : check_parent fs dst = .ok ())
    (hdst : fs.exists_ dst = true)
    (hmeta : fs.metadataErr dst = none) :
    (fs.readonly dst = true →
      copy_file fs src dst true = (.error (.PermissionError dst), fs)
      ∧ move_file fs src dst true = (.error (.PermissionError dst), fs)
      ∧ symlink_file fs src dst true = (.error (.PermissionError dst), fs)
      ∧ hardlink_file fs src dst true = (.error (.PermissionError dst), fs))
    ∧ (fs.readonly dst = false → fs.removeErr dst = none →
      (fs_remove_file fs dst).snd.entries dst = none
      ∧ move_file fs src dst true = move_finish (fs_remove_file fs dst).snd src dst
      ∧ symlink_file fs src dst true = symlink_finish (fs_remove_file fs dst).snd src dst
      ∧ hardlink_file fs src dst true = hardlink_finish (fs_remove_file fs dst).snd src dst
      ∧ copy_file fs src dst true = copy_finish fs src dst) := by
  have hvd : validate_destination fs src dst true = .ok () := by
    unfold validate_destination
    unfold check_parent at hpar
    cases hp : dst.parent with
    | none => simp [hsame]
    | some parent =>
      rw [hp] at hpar
      by_cases hpe : fs.exists_ parent = true
      · simp [hsame, hpe]
      · simp only [Bool.not_eq_true] at hpe
        simp [hpe] at hpar
  constructor
  · intro hro
    have hw : validate_writable fs dst = .error (.PermissionError dst) := by
      unfold validate_writable
      simp [hdst, hmeta, hro]
    have hcm : copy_move_preflight fs src dst true = .error (.PermissionError dst) := by
      unfold copy_move_preflight
      simp [hsrc, hvd, hdst, hw]
    have hlk : link_preflight fs src dst true = .error (.PermissionError dst) := by
      unfold link_preflight
      simp [hsrc, hpar, hdst, hw]
    exact ⟨copy_file_preflight_error _ _ _ _ _ hcm, move_file_preflight_error _ _ _ _ _ hcm,
           symlink_file_preflight_error _ _ _ _ _ hlk,
           hardlink_file_preflight_error _ _ _ _ _ hlk⟩
  · intro hro hre
    have hw : validate_writable fs dst = .ok () := by
      unfold validate_writable
      simp [hdst, hmeta, hro]
    have hcm : copy_move_preflight fs src dst true = .ok () := by
      unfold copy_move_preflight
      simp [hsrc, hvd, hdst, hw]
    have hlk : link_preflight fs src dst true = .ok () := by
      unfold link_preflight
      simp [hsrc, hpar, hdst, hw]
    refine ⟨by simp [fs_remove_file, hre], ?_, ?_, ?_, copy_file_preflight_ok _ _ _ _ hcm⟩
    · rw [move_file_preflight_ok _ _ _ _ hcm]
      simp [hdst, fs_remove_file, hre]
    · rw [symlink_file_preflight_ok _ _ _ _ hlk]
      simp [hdst, fs_remove_file, hre]
    · rw [hardlink_file_preflight_ok _ _ _ _ hlk]
      simp [hdst, fs_remove_file, hre]

/-- C5 witness: the read-only branch at the concrete read-only
destination, and the removal fact of the writable branch at the concrete
writable destination. -/
theorem claim5_witness :
    copy_file fsRO pSrcW pDstW true = (.error (.PermissionError pDstW), fsRO)
    ∧ move_file fsRO pSrcW pDstW true = (.error (.PermissionError pDstW), fsRO)
    ∧ symlink_file fsRO pSrcW pDstW true = (.error (.PermissionError pDstW), fsRO)
    ∧ hardlink_file fsRO pSrcW pDstW true = (.error (.PermissionError pDstW), fsRO)
    ∧ (fs_remove_file fsRW pDstW).snd.entries pDstW = none
    ∧ copy_file fsRW pSrcW pDstW true = copy_finish fsRW pSrcW pDstW := by
  have hro := (claim5_overwrite_policy fsRO pSrcW pDstW (by rfl) (by rfl) (by rfl) (by rfl)
    (by rfl)).1 (by rfl)
  have hrw := (claim5_overwrite_policy fsRW pSrcW pDstW (by rfl) (by rfl) (by rfl) (by rfl)
    (by rfl)).2 (by rfl) (by rfl)
  exact ⟨hro.1, hro.2.1, hro.2.2.1, hro.2.2.2, hrw.1, hrw.2.2.2.2⟩

/-- The strict walk stream is exactly the spec-side depth-first sequence. -/
theorem walkdirStream_eq_specStream_all :
    (∀ n, walkdirStream n = specStream n)
    ∧ (∀ cs, (rawWalkForest cs).filterMap walkFilter = specStreamForest cs) := by
  refine walkNode_forest_ind _ _ ?_ ?_ ?_ ?_ ?_
  · intro p; rfl
  · intro p cs ih
    simp [walkdirStream, rawWalk, specStream, walkFilter, WEntry.is_file, ih]
  · intro e; rfl
  · rfl
  · intro c cs ihc ihcs
    simp only [walkdirStream] at ihc
    simp [rawWalkForest, specStreamForest, List.filterMap_append, ihc, ihcs]

/-- The lenient walk stream is exactly the depth-first list of files. -/
theorem lenientStream_eq_filesOf_all :
    (∀ n, lenientStream n = filesOf n)
    ∧ (∀ cs, ((((rawWalkForest cs).filterMap Except.toOption).filter
        WEntry.is_file).map WEntry.path) = filesOfForest cs) := by
  refine walkNode_forest_ind _ _ ?_ ?_ ?_ ?_ ?_
  · intro p; rfl
  · intro p cs ih
    simp [lenientStream, rawWalk, filesOf, Except.toOption, WEntry.is_file, ih]
  · intro e; rfl
  · rfl
  · intro c cs ihc ihcs
    simp only [lenientStream] at ihc
    simp [rawWalkForest, filesOfForest, List.filterMap_append, List.filter_append,
      List.map_append, ihc, ihcs]

/-- An `Ok` element occurs in the spec stream exactly for the walked files. -/
theorem specStream_ok_mem_all :
    (∀ n, ∀ p, Except.ok p ∈ specStream n ↔ p ∈ filesOf n)
    ∧ (∀ cs, ∀ p, Except.ok p ∈ specStreamForest cs ↔ p ∈ filesOfForest cs) := by
  refine walkNode_forest_ind _ _ ?_ ?_ ?_ ?_ ?_
  · intro p q; simp [specStream, filesOf]
  · intro p cs ih q
    simp [specStream, filesOf, ih q]
  · intro e q; simp [specStream, filesOf]
  · intro q; simp [specStreamForest, filesOfForest]
  · intro c cs ihc ihcs q
    simp [specStreamForest, filesOfForest, ihc q, ihcs q]

/-- An error element occurs in the spec stream exactly as `WalkDir` of a
traversal error, in place. -/
theorem specStream_err_mem_all :
    (∀ n, ∀ e, Except.error e ∈ specStream n ↔ ∃ w, e = FsError.WalkDir w ∧ w ∈ errsOf n)
    ∧ (∀ cs, ∀ e, Except.error e ∈ specStreamForest cs ↔
        ∃ w, e = FsError.WalkDir w ∧ w ∈ errsOfForest cs) := by
  refine walkNode_forest_ind _ _ ?_ ?_ ?_ ?_ ?_
  · intro p e; simp [specStream, errsOf]
  · intro p cs ih e
    simp [specStream, errsOf, ih e]
  · intro e0 e
    simp [specStream, errsOf]
  · intro e; simp [specStreamForest, errsOfForest]
  · intro c cs ihc ihcs e
    simp only [specStreamForest, errsOfForest, List.mem_append, ihc e, ihcs e]
    constructor
    · rintro (⟨w, hw, hm⟩ | ⟨w, hw, hm⟩) <;> exact ⟨w, hw, by simp [hm]⟩
    · rintro ⟨w, hw, hm | hm⟩
      · exact Or.inl ⟨w, hw, hm⟩
      · exact Or.inr ⟨w, hw, hm⟩

/-- Dropping the error elements of the spec stream leaves the files. -/
theorem specStream_toOption_all :
    (∀ n, (specStream n).filterMap Except.toOption = filesOf n)
    ∧ (∀ cs, (specStreamForest cs).filterMap Except.toOption = filesOfForest cs) := by
  refine walkNode_forest_ind _ _ ?_ ?_ ?_ ?_ ?_
  · intro p; rfl
  · intro p cs ih
    simp [specStream, filesOf, ih]
  · intro e; rfl
  · rfl
  · intro c cs ihc ihcs
    simp [specStreamForest, filesOfForest, List.filterMap_append, ihc, ihcs]

/-- On an error-free stream, the `find_ext` loop returns the retained
files, in order. -/
theorem find_ext_go_all_ok (ext : String) :
    ∀ l : List (Except FsError Path), (∀ r ∈ l, ∃ p, r = Except.ok p) →
      find_ext_go ext l = .ok ((l.filterMap Except.toOption).filter (extMatches ext)) := by
  intro l
  induction l with
  | nil => intro h; rfl
  | cons r rest ih =>
    intro h
    obtain ⟨p, hp⟩ := h r (List.mem_cons_self r rest)
    subst hp
    have hrest := ih (fun x hx => h x (List.mem_cons_of_mem _ hx))
    simp only [find_ext_go, hrest, List.filterMap_cons, Except.toOption, List.filter_cons]
    unfold extMatches
    cases hx : p.extension with
    | none => simp [hx]
    | some e2 =>
      by_cases hm : eqIgnoreAsciiCase e2 ext = true <;> simp [hx, hm]

/-- The `find_audio_files` loop is a filter by the allowlist test. -/
theorem find_audio_go_eq_filter : ∀ ps : List Path, find_audio_go ps = ps.filter audioMatch := by
  intro ps
  induction ps with
  | nil => rfl
  | cons p rest ih =>
    simp only [find_audio_go, ih, List.filter_cons]
    unfold audioMatch
    cases hx : p.extension with
    | none => simp [hx]
    | some ext =>
      by_cases hm : AUDIO_EXTS.contains (strLower ext) = true <;> simp [hx, hm]

/-- C6: on a nonexistent root both walks fail with `PathNotFound` carrying
the root, and on a regular-file root both fail with `NotADirectory`
carrying it; in each case no sequence is produced. -/
theorem claim6_walk_preflight (wfs : WalkFS) (p f : Path) :
    (wfs.lookup p = none →
      walkdir wfs p = .error (.PathNotFound p)
      ∧ walkdir_lenient wfs p = .error (.PathNotFound p))
    ∧ (∀ q, wfs.lookup f = some (.file q) →
      walkdir wfs f = .error (.NotADirectory f)
      ∧ walkdir_lenient wfs f = .error (.NotADirectory f)) := by
  constructor
  · intro h
    constructor <;> simp [walkdir, walkdir_lenient, h]
  · intro q h
    constructor <;> simp [walkdir, walkdir_lenient, h, WalkNode.isFileNode]

/-- C6 witness: the pre-flight failures at a concrete missing path and a
concrete regular file. -/
theorem claim6_witness :
    walkdir wfsExt pGone = .error (.PathNotFound pGone)
    ∧ walkdir_lenient wfsExt pGone = .error (.PathNotFound pGone)
    ∧ walkdir wfsExt fLone = .error (.NotADirectory fLone)
    ∧ walkdir_lenient wfsExt fLone = .error (.NotADirectory fLone) := by
  have h1 := (claim6_walk_preflight wfsExt pGone fLone).1 (by rfl)
  have h2 := (claim6_walk_preflight wfsExt pGone fLone).2 fLone (by rfl)
  exact ⟨h1.1, h1.2, h2.1, h2.2⟩

/-- C7: on an existing directory root, `walkdir` produces exactly the
depth-first spec sequence: an `Ok` element exactly for every reachable
regular file (directories never yielded), and an error element exactly for
every traversal error, in place, with the traversal continuing. -/
theorem claim7_walk_stream (wfs : WalkFS) (root : Path) (n : WalkNode)
    (hroot : wfs.lookup root = some n)
    (hnf : n.isFileNode = false) :
    walkdir wfs root = .ok (specStream n)
    ∧ (∀ p, Except.ok p ∈ specStream n ↔ p ∈ filesOf n)
    ∧ (∀ e, Except.error e ∈ specStream n ↔ ∃ w, e = FsError.WalkDir w ∧ w ∈ errsOf n) := by
  refine ⟨?_, fun p => specStream_ok_mem_all.1 n p, fun e => specStream_err_mem_all.1 n e⟩
  simp [walkdir, hroot, hnf, walkdirStream_eq_specStream_all.1 n]

/-- C7 witness: the stream equality at the concrete directory. -/
theorem claim7_witness : walkdir wfsExt dirM = .ok (specStream treeExt) :=
  (claim7_walk_stream wfsExt dirM treeExt rfl rfl).1

/-- C8: on an existing directory whose walk meets no traversal error,
`find_ext` returns exactly the walked files whose extension matches
case-insensitively, in traversal order; at the concrete directory
`{a.flac, b.FLAC, c.mp3}` it yields exactly `[a.flac, b.FLAC]`, count 2. -/
theorem claim8_find_ext_matching :
    (∀ (wfs : WalkFS) (root : Path) (n : WalkNode) (ext : String),
      wfs.lookup root = some n → n.isFileNode = false → errsOf n = [] →
      find_ext wfs root ext = .ok ((filesOf n).filter (extMatches ext)))
    ∧ find_ext wfsExt dirM "flac" = .ok [aFlac, bFlac]
    ∧ [aFlac, bFlac].length = 2 := by
  refine ⟨?_, rfl, rfl⟩
  intro wfs root n ext hroot hnf herr
  have hok : ∀ r ∈ specStream n, ∃ p, r = Except.ok p := by
    intro r hr
    cases r with
    | ok p => exact ⟨p, rfl⟩
    | error e =>
      obtain ⟨w, _, hmem⟩ := (specStream_err_mem_all.1 n e).1 hr
      rw [herr] at hmem
      exact absurd hmem (List.not_mem_nil w)
  have hfe : find_ext wfs root ext = find_ext_go ext (specStream n) := by
    simp [find_ext, walkdir, hroot, hnf, walkdirStream_eq_specStream_all.1 n]
  rw [hfe, find_ext_go_all_ok ext _ hok, specStream_toOption_all.1 n]

/-- C8 witness: the general statement at the concrete extension scenario. -/
theorem claim8_witness :
    find_ext wfsExt dirM "flac" = .ok ((filesOf treeExt).filter (extMatches "flac")) :=
  claim8_find_ext_matching.1 wfsExt dirM treeExt "flac" rfl rfl rfl

/-- C9: `find_audio_files` uses the lenient walk and returns exactly the
walked files whose extension is on the audio allowlist,
case-insensitively; at the concrete directory
`{song.flac, track.mp3, readme.txt}` it yields exactly the two audio
files, excluding `readme.txt`. -/
theorem claim9_find_audio :
    (∀ (wfs : WalkFS) (root : Path) (n : WalkNode),
      wfs.lookup root = some n → n.isFileNode = false →
      find_audio_files wfs root = .ok ((filesOf n).filter audioMatch))
    ∧ find_audio_files wfsAudio dirM = .ok [songF, trackF] := by
  refine ⟨?_, rfl⟩
  intro wfs root n hroot hnf
  simp [find_audio_files, walkdir_lenient, hroot, hnf, lenientStream_eq_filesOf_all.1 n,
    find_audio_go_eq_filter]

/-- C9 witness: the general statement at the concrete audio scenario. -/
theorem claim9_witness :
    find_audio_files wfsAudio dirM = .ok ((filesOf treeAudio).filter audioMatch) :=
  claim9_find_audio.1 wfsAudio dirM treeAudio rfl rfl

end Flacman
